import Mathlib

/-!
Verification of the chat-response pipeline of the card-academy website:
message-structure validation, rate limiting, search-query enhancement,
the response generator's retry loop, and the client-side markdown enhancer.
The definitions below are shallow embeddings of the TypeScript sources
(`attached_assets/Pasted-import-type-Message-...txt` for the server pipeline,
`attached_assets/Pasted-import-useState-...txt` for `enhanceMarkdown`).
Wall-clock instants are modelled as natural-number milliseconds and the
mutable module state of the rate limiter is passed explicitly.
-/

/-! ## String helpers (JS `String.prototype.includes`, split, trim) -/

/-- Substring test on char lists: `pat` occurs contiguously in `hay`.
Models JS `hay.includes(pat)`. -/
def listContains (hay pat : List Char) : Bool :=
  match hay with
  | [] => pat.isEmpty
  | _ :: t => pat.isPrefixOf hay || listContains t pat

/-- JS `s.includes(pat)`. -/
def strIncludes (s pat : String) : Bool :=
  listContains s.data pat.data

/-- Whitespace class used by the JS regexes (`\s`) and `trim`. -/
def jsWS (c : Char) : Bool :=
  c == ' ' || c == '\t' || c == '\n' || c == '\r' || c == '\x0b' || c == '\x0c'

/-- JS `trim` on a char list: drop whitespace from both ends. -/
def trimChars (l : List Char) : List Char :=
  ((l.dropWhile jsWS).reverse.dropWhile jsWS).reverse

/-- JS `trim` on strings. -/
def jsTrim (s : String) : String :=
  ⟨trimChars s.data⟩

/-- JS `toLowerCase`, as a per-char map. (The core `String.toLower` is
extensionally the same but is defined by recursion on byte positions, which
the kernel cannot evaluate; this form reduces.) -/
def jsToLower (s : String) : String :=
  ⟨s.data.map Char.toLower⟩

/-! ## Data model: conversation turns -/

/-- One conversation turn (`{ role, content }` in the source). -/
structure Msg where
  role : String
  content : String
deriving DecidableEq, Repr

/-! ## Message Validator (`validateMessageStructure`) -/

/-- The non-system turns: `messages.filter((msg) => msg.role !== "system")`. -/
def nonSystem (messages : List Msg) : List Msg :=
  messages.filter (fun msg => msg.role != "system")

/-- The `for` loop of `validateMessageStructure`: true iff some adjacent
pair of turns has the same role. -/
def hasAdjacentSameRole : List Msg → Bool
  | a :: b :: rest => (a.role == b.role) || hasAdjacentSameRole (b :: rest)
  | _ => false

/-- `validateMessageStructure` from the server source: empty conversations are
valid; otherwise system turns are filtered out, and the result is invalid iff
two adjacent remaining turns share a role or the last remaining turn is not a
user turn. -/
def validateMessageStructure (messages : List Msg) : Bool :=
  if messages.length == 0 then true
  else
    let nonSystemMessages := nonSystem messages
    if nonSystemMessages.length == 0 then true
    else if hasAdjacentSameRole nonSystemMessages then false
    else if decide (0 < nonSystemMessages.length)
        && ((nonSystemMessages.getLast?.map Msg.role) != some "user") then false
    else true

theorem hasAdjacentSameRole_iff (l : List Msg) :
    hasAdjacentSameRole l = true ↔ ∃ p ∈ l.zip l.tail, p.1.role = p.2.role := by
  induction l with
  | nil => simp [hasAdjacentSameRole]
  | cons a rest ih =>
    cases rest with
    | nil => simp [hasAdjacentSameRole]
    | cons b t =>
      simp only [hasAdjacentSameRole, Bool.or_eq_true, beq_iff_eq, ih,
        List.zip_cons_cons, List.tail_cons, List.mem_cons]
      constructor
      · rintro (h | ⟨p, hp, hr⟩)
        · exact ⟨(a, b), Or.inl rfl, h⟩
        · exact ⟨p, Or.inr hp, hr⟩
      · rintro ⟨p, (rfl | hp), hr⟩
        · exact Or.inl hr
        · exact Or.inr ⟨p, hp, hr⟩

/-- C2: `validateMessageStructure` accepts the empty conversation and any
conversation made only of system turns; after filtering out system turns it
rejects exactly when some adjacent pair of remaining turns shares a role or
the last remaining turn's role is not `"user"`, and accepts otherwise. -/
theorem validateMessageStructure_spec :
    validateMessageStructure [] = true
    ∧ (∀ messages : List Msg, (∀ m ∈ messages, m.role = "system") →
        validateMessageStructure messages = true)
    ∧ (∀ messages : List Msg,
        validateMessageStructure messages = false ↔
          ((∃ p ∈ (nonSystem messages).zip (nonSystem messages).tail, p.1.role = p.2.role)
            ∨ (∃ m, (nonSystem messages).getLast? = some m ∧ m.role ≠ "user"))) := by
  refine ⟨rfl, ?_, ?_⟩
  · intro messages hall
    have hns : nonSystem messages = [] := by
      simp only [nonSystem, List.filter_eq_nil_iff]
      intro m hm
      simp [hall m hm]
    simp [validateMessageStructure, hns]
  · intro messages
    by_cases hns0 : nonSystem messages = []
    · have hval : validateMessageStructure messages = true := by
        simp [validateMessageStructure, hns0]
      simp [hval, hns0]
    · have hlen : (messages.length == 0) = false := by
        rcases messages with _ | ⟨m, t⟩
        · exact absurd rfl hns0
        · simp
      have hnslen : ((nonSystem messages).length == 0) = false := by
        simpa using hns0
      rcases hlast : (nonSystem messages).getLast? with _ | m
      · exact absurd (List.getLast?_eq_none_iff.mp hlast) hns0
      · by_cases hadj : hasAdjacentSameRole (nonSystem messages) = true
        · have hval : validateMessageStructure messages = false := by
            simp [validateMessageStructure, hlen, hnslen, hadj]
          rw [hval]
          simp only [true_iff]
          exact Or.inl ((hasAdjacentSameRole_iff _).mp hadj)
        · have hadj' : hasAdjacentSameRole (nonSystem messages) = false := by
            simpa using hadj
          have hpos : decide (0 < (nonSystem messages).length) = true := by
            rcases h : nonSystem messages with _ | ⟨a, t⟩
            · exact absurd h hns0
            · simp
          by_cases hrole : m.role = "user"
          · have hval : validateMessageStructure messages = true := by
              simp [validateMessageStructure, hlen, hnslen, hadj', hlast, hrole]
            rw [hval]
            constructor
            · intro h
              simp at h
            · rintro (⟨p, hp, hr⟩ | ⟨m', hm', hne⟩)
              · exact absurd ((hasAdjacentSameRole_iff _).mpr ⟨p, hp, hr⟩)
                  (by simp [hadj'])
              · cases hm'
                exact absurd hrole hne
          · have hval : validateMessageStructure messages = false := by
              simp [validateMessageStructure, hlen, hnslen, hadj', hpos, hlast, hrole]
            rw [hval]
            simp only [true_iff]
            exact Or.inr ⟨m, rfl, hrole⟩

/-- Witness for the C2 theorem: a concrete all-system conversation is accepted. -/
theorem validateMessageStructure_spec_witness :
    validateMessageStructure [⟨"system", "s"⟩] = true :=
  validateMessageStructure_spec.2.1 [⟨"system", "s"⟩] (by decide)

/-! ## Rate Limiter (`checkRateLimit`) -/

/-- One entry of the `RATE_LIMIT.tokens` map: `{ count, resetTime }`. -/
structure Bucket where
  count : Nat
  resetTime : Nat
deriving DecidableEq, Repr

/-- `RATE_LIMIT.windowMs`: 1 minute window. -/
def RATE_LIMIT_windowMs : Nat := 60 * 1000

/-- `RATE_LIMIT.maxRequests`: max requests per window. -/
def RATE_LIMIT_maxRequests : Nat := 10

/-- The mutable `RATE_LIMIT.tokens` map as an association list keyed by the
window index. (The source keys by the decimal string of the index; that keying
is injective, so the index itself is used here.) -/
abbrev RLState := List (Nat × Bucket)

/-- Result of `checkRateLimit`: `{ allowed, resetTime? }`. -/
structure RLCheck where
  allowed : Bool
  resetTime : Option Nat
deriving DecidableEq, Repr

/-- JS `Map.set` on an existing key: replace the stored bucket. -/
def rlUpdate (k : Nat) (b : Bucket) (tokens : RLState) : RLState :=
  tokens.map (fun kv => if kv.1 == k then (k, b) else kv)

/-- `checkRateLimit` from the server source, with `Date.now()` and the module
map passed explicitly. On a missing bucket a fresh `{count := 0, resetTime :=
now + windowMs}` entry is inserted and expired entries are cleaned up; a bucket
at or above the limit rejects and reports its `resetTime`; otherwise the
counter is incremented (modelled via `rlUpdate`, the JS in-place `count++`). -/
def checkRateLimit (now : Nat) (tokens : RLState) : RLCheck × RLState :=
  let windowKey := now / RATE_LIMIT_windowMs
  match tokens.lookup windowKey with
  | some tokenBucket =>
    if RATE_LIMIT_maxRequests ≤ tokenBucket.count then
      ({ allowed := false, resetTime := some tokenBucket.resetTime }, tokens)
    else
      ({ allowed := true, resetTime := none },
        rlUpdate windowKey { tokenBucket with count := tokenBucket.count + 1 } tokens)
  | none =>
    let tokenBucket : Bucket := { count := 0, resetTime := now + RATE_LIMIT_windowMs }
    let tokens1 := (tokens ++ [(windowKey, tokenBucket)]).filter
      (fun kv => !decide (kv.2.resetTime < now))
    if RATE_LIMIT_maxRequests ≤ tokenBucket.count then
      ({ allowed := false, resetTime := some tokenBucket.resetTime }, tokens1)
    else
      ({ allowed := true, resetTime := none },
        rlUpdate windowKey { tokenBucket with count := tokenBucket.count + 1 } tokens1)

/-- Run `checkRateLimit` once per instant in `ts`, threading the map. -/
def simulateRL : List Nat → RLState → List RLCheck × RLState
  | [], tokens => ([], tokens)
  | t :: ts, tokens =>
    let step := checkRateLimit t tokens
    let rest := simulateRL ts step.2
    (step.1 :: rest.1, rest.2)

theorem checkRateLimit_empty (now : Nat) :
    checkRateLimit now [] =
      ({ allowed := true, resetTime := none },
        [(now / RATE_LIMIT_windowMs, ⟨1, now + RATE_LIMIT_windowMs⟩)]) := by
  simp [checkRateLimit, rlUpdate, RATE_LIMIT_maxRequests]

theorem simulateRL_bucket (ts : List Nat) (k : Nat) (rt : Nat) :
    ∀ c, (∀ t ∈ ts, t / RATE_LIMIT_windowMs = k) → c ≤ RATE_LIMIT_maxRequests →
    simulateRL ts [(k, ⟨c, rt⟩)] =
      ((List.range ts.length).map (fun i =>
          if c + i < RATE_LIMIT_maxRequests then ⟨true, none⟩ else ⟨false, some rt⟩),
        [(k, ⟨min (c + ts.length) RATE_LIMIT_maxRequests, rt⟩)]) := by
  induction ts with
  | nil =>
    intro c hk hc
    simp [simulateRL]
    omega
  | cons t ts ih =>
    intro c hk hc
    have hkt : t / RATE_LIMIT_windowMs = k := hk t (by simp)
    have hlookup : List.lookup (t / RATE_LIMIT_windowMs) [(k, (⟨c, rt⟩ : Bucket))] =
        some ⟨c, rt⟩ := by
      simp [List.lookup, hkt]
    by_cases hfull : RATE_LIMIT_maxRequests ≤ c
    · have hc10 : c = RATE_LIMIT_maxRequests := le_antisymm hc hfull
      have hstep : checkRateLimit t [(k, ⟨c, rt⟩)] =
          ({ allowed := false, resetTime := some rt }, [(k, ⟨c, rt⟩)]) := by
        simp [checkRateLimit, hlookup, hfull]
      have ihs := ih c (fun t ht => hk t (by simp [ht])) hc
      simp only [simulateRL, hstep, ihs]
      simp only [List.length_cons, List.range_succ_eq_map, List.map_cons, List.map_map,
        Prod.mk.injEq, List.cons.injEq, Bucket.mk.injEq]
      refine ⟨⟨?_, ?_⟩, ?_⟩
      · rw [if_neg (by simp only [RATE_LIMIT_maxRequests] at *; omega)]
      · apply List.map_congr_left
        intro i _
        simp only [Function.comp]
        split <;> split <;> first | rfl | omega
      · have hcnt : (c + ts.length) ⊓ RATE_LIMIT_maxRequests
            = (c + (ts.length + 1)) ⊓ RATE_LIMIT_maxRequests := by
          rw [inf_eq_min, inf_eq_min, Nat.min_eq_right (by omega), Nat.min_eq_right (by omega)]
        simp [hcnt]
    · have hlt : c < RATE_LIMIT_maxRequests := lt_of_not_le hfull
      have hstep : checkRateLimit t [(k, ⟨c, rt⟩)] =
          ({ allowed := true, resetTime := none }, [(k, ⟨c + 1, rt⟩)]) := by
        simp [checkRateLimit, hlookup, rlUpdate, hfull, hkt]
      have ihs := ih (c + 1) (fun t ht => hk t (by simp [ht])) (by omega)
      simp only [simulateRL, hstep, ihs]
      simp only [List.length_cons, List.range_succ_eq_map, List.map_cons, List.map_map,
        Prod.mk.injEq, List.cons.injEq, Bucket.mk.injEq]
      refine ⟨⟨?_, ?_⟩, ?_⟩
      · rw [if_pos (by omega)]
      · apply List.map_congr_left
        intro i _
        simp only [Function.comp]
        split <;> split <;> first | rfl | omega
      · have hcnt : c + 1 + ts.length = c + (ts.length + 1) := by omega
        simp [hcnt]

theorem simulateRL_run (t0 : Nat) (ts : List Nat) (k : Nat)
    (hk : ∀ t ∈ (t0 :: ts), t / RATE_LIMIT_windowMs = k) :
    simulateRL (t0 :: ts) [] =
      (⟨true, none⟩ :: (List.range ts.length).map (fun i =>
          if 1 + i < RATE_LIMIT_maxRequests then ⟨true, none⟩
          else ⟨false, some (t0 + RATE_LIMIT_windowMs)⟩),
        [(k, ⟨min (1 + ts.length) RATE_LIMIT_maxRequests, t0 + RATE_LIMIT_windowMs⟩)]) := by
  have hk0 : t0 / RATE_LIMIT_windowMs = k := hk t0 (by simp)
  have hbucket := simulateRL_bucket ts k (t0 + RATE_LIMIT_windowMs) 1
    (fun t ht => hk t (by simp [ht])) (by simp [RATE_LIMIT_maxRequests])
  simp only [simulateRL, checkRateLimit_empty, hk0, hbucket]

/-- C4: within one fixed 60-second bucket, starting from a fresh limiter, the
first 10 calls to `checkRateLimit` are all allowed — after the first `j ≤ 10`
calls the bucket's counter is exactly `j` — and every call from the 11th
onward in the same bucket is rejected with a reported reset instant that is
greater than or equal to that call's current time. -/
theorem checkRateLimit_window_spec (t0 : Nat) (ts : List Nat) (k : Nat)
    (hk : ∀ t ∈ (t0 :: ts), t / RATE_LIMIT_windowMs = k) :
    (∀ i r, (simulateRL (t0 :: ts) []).1.get? i = some r →
        ((i < 10 → r = ⟨true, none⟩)
          ∧ (10 ≤ i → r.allowed = false ∧
              ∀ t, (t0 :: ts).get? i = some t →
                ∃ rt, r.resetTime = some rt ∧ t ≤ rt)))
    ∧ (∀ j, 1 ≤ j → j ≤ 10 → j ≤ ts.length + 1 →
        (simulateRL ((t0 :: ts).take j) []).2 = [(k, ⟨j, t0 + RATE_LIMIT_windowMs⟩)]) := by
  constructor
  · rw [simulateRL_run t0 ts k hk]
    intro i r hr
    cases i with
    | zero =>
      simp only [List.get?] at hr
      cases hr
      exact ⟨fun _ => rfl, fun h => absurd h (by omega)⟩
    | succ i =>
      have hr' : ((List.range ts.length).map (fun i =>
          if 1 + i < RATE_LIMIT_maxRequests then (⟨true, none⟩ : RLCheck)
          else ⟨false, some (t0 + RATE_LIMIT_windowMs)⟩)).get? i = some r := hr
      rw [List.get?_map] at hr'
      rcases hi : (List.range ts.length).get? i with _ | j
      · rw [hi] at hr'
        cases hr'
      · rw [hi] at hr'
        have hj : j = i := by
          have hlt : i < ts.length := by
            by_contra hge
            rw [List.get?_eq_none.mpr (by simpa using hge)] at hi
            cases hi
          rw [List.get?_range hlt] at hi
          cases hi
          rfl
        subst hj
        cases hr'
        dsimp only
        constructor
        · intro hi10
          rw [if_pos (by simp only [RATE_LIMIT_maxRequests]; omega)]
        · intro hi10
          rw [if_neg (by simp only [RATE_LIMIT_maxRequests]; omega)]
          refine ⟨rfl, ?_⟩
          intro t ht
          refine ⟨t0 + RATE_LIMIT_windowMs, rfl, ?_⟩
          have htmem : t ∈ ts := List.get?_mem (show ts.get? _ = some t from ht)
          have hkt : t / RATE_LIMIT_windowMs = k := hk t (by simp [htmem])
          have hk0 : t0 / RATE_LIMIT_windowMs = k := hk t0 (by simp)
          simp only [RATE_LIMIT_windowMs] at *
          omega
  · intro j h1 h10 hlen
    rcases j with _ | j'
    · omega
    · have hj' : j' ≤ ts.length := by omega
      rw [List.take_succ_cons]
      have hk' : ∀ t ∈ (t0 :: ts.take j'), t / RATE_LIMIT_windowMs = k := by
        intro t ht
        rcases List.mem_cons.mp ht with rfl | hmem
        · exact hk t (by simp)
        · exact hk t (by simp [List.take_subset j' ts hmem])
      rw [simulateRL_run t0 (ts.take j') k hk']
      have hlentake : (ts.take j').length = j' := by
        rw [List.length_take]
        omega
      rw [hlentake]
      have hmin : min (1 + j') RATE_LIMIT_maxRequests = j' + 1 := by
        simp only [RATE_LIMIT_maxRequests]
        omega
      rw [hmin]

/-- Witness for the C4 theorem: ten requests at time 0 leave the bucket counter
at exactly 10. -/
theorem checkRateLimit_window_spec_witness :
    (simulateRL (((0 : Nat) :: List.replicate 11 0).take 10) []).2
      = [(0, ⟨10, 0 + RATE_LIMIT_windowMs⟩)] :=
  (checkRateLimit_window_spec 0 (List.replicate 11 0) 0 (by decide)).2 10
    (by decide) (by decide) (by decide)

/-- C5 counterexample: eleven requests all at t = 30000 ms fall in the bucket
`floor(30000 / 60000) = 0`; the 11th is rejected with reported reset instant
90000 (= creation time 30000 + 60000), but the end of the fixed window that
keys the bucket is `(floor(30000/60000) + 1) * 60000 = 60000`, so the claimed
formula does not hold. -/
theorem checkRateLimit_reset_counterexample :
    (simulateRL (List.replicate 11 30000) []).1.get? 10
        = some { allowed := false, resetTime := some 90000 }
      ∧ (30000 / RATE_LIMIT_windowMs + 1) * RATE_LIMIT_windowMs = 60000
      ∧ (90000 : Nat) ≠ 60000 := by decide

/-- C5 amended: when `checkRateLimit` rejects, the reported reset instant is
the `resetTime` stored in the current bucket, which equals the time of the
request that created the bucket plus the window length (and is therefore at
or after the end of the fixed window that keys the bucket, but in general is
not equal to it). -/
theorem checkRateLimit_reset_amended (t0 : Nat) (ts : List Nat) (k : Nat)
    (hk : ∀ t ∈ (t0 :: ts), t / RATE_LIMIT_windowMs = k) :
    ∀ i r, (simulateRL (t0 :: ts) []).1.get? i = some r → r.allowed = false →
      r.resetTime = some (t0 + RATE_LIMIT_windowMs)
        ∧ (k + 1) * RATE_LIMIT_windowMs ≤ t0 + RATE_LIMIT_windowMs := by
  have hk0 : t0 / RATE_LIMIT_windowMs = k := hk t0 (by simp)
  have hwin : (k + 1) * RATE_LIMIT_windowMs ≤ t0 + RATE_LIMIT_windowMs := by
    simp only [RATE_LIMIT_windowMs] at *
    omega
  rw [simulateRL_run t0 ts k hk]
  intro i r hr hal
  cases i with
  | zero =>
    simp only [List.get?] at hr
    cases hr
    cases hal
  | succ i =>
    have hr' : ((List.range ts.length).map (fun i =>
        if 1 + i < RATE_LIMIT_maxRequests then (⟨true, none⟩ : RLCheck)
        else ⟨false, some (t0 + RATE_LIMIT_windowMs)⟩)).get? i = some r := hr
    rw [List.get?_map] at hr'
    rcases hi : (List.range ts.length).get? i with _ | j
    · rw [hi] at hr'
      cases hr'
    · rw [hi] at hr'
      cases hr'
      dsimp only at hal ⊢
      by_cases hcond : 1 + j < RATE_LIMIT_maxRequests
      · rw [if_pos hcond] at hal
        cases hal
      · rw [if_neg hcond]
        exact ⟨rfl, hwin⟩

/-- Witness for the amended C5 theorem: the 11th request at t = 30000 is
rejected with reset instant 30000 + windowMs = 90000. -/
theorem checkRateLimit_reset_amended_witness :
    ((simulateRL (30000 :: List.replicate 10 30000) []).1.get? 10
        = some { allowed := false, resetTime := some 90000 })
      ∧ (some 90000 : Option Nat) = some (30000 + RATE_LIMIT_windowMs) :=
  ⟨by decide, by
    have h := checkRateLimit_reset_amended 30000 (List.replicate 10 30000) 0 (by decide)
      10 ⟨false, some 90000⟩ (by decide) rfl
    exact h.1⟩

/-! ## Search-Query Enhancer (`enhanceSearchParams`) -/

/-- The derived search parameters (`{ searchQuery }`). -/
structure SearchParams where
  searchQuery : String
deriving DecidableEq, Repr

/-- JS `query.split(/vs|compare|and/)`: scan left to right, trying the
alternatives in the regex's order at each position. Fuel is the length of the
remaining input (every step consumes at least one char). -/
def splitVCAF : Nat → List Char → List (List Char)
  | _, [] => [[]]
  | 0, l => [l]
  | fuel + 1, c :: rest =>
    if ['v', 's'].isPrefixOf (c :: rest) then
      [] :: splitVCAF fuel ((c :: rest).drop 2)
    else if ['c', 'o', 'm', 'p', 'a', 'r', 'e'].isPrefixOf (c :: rest) then
      [] :: splitVCAF fuel ((c :: rest).drop 7)
    else if ['a', 'n', 'd'].isPrefixOf (c :: rest) then
      [] :: splitVCAF fuel ((c :: rest).drop 3)
    else
      match splitVCAF fuel rest with
      | t :: ts => (c :: t) :: ts
      | [] => [[c]]

/-- `query.split(/vs|compare|and/)` on strings. -/
def splitVsCompareAnd (s : String) : List String :=
  (splitVCAF s.data.length s.data).map (fun l => ⟨l⟩)

/-- `enhanceSearchParams` from the server source: a fixed base phrase, one
keyword-selected additional phrase (first match wins, in source order), and
the fixed site-restriction clause. -/
def enhanceSearchParams (query : String) : SearchParams :=
  let baseSearchTerms := "latest Indian credit cards"
  let additionalTerms :=
    if strIncludes query "vs" || strIncludes query "compare" then
      let cards := (splitVsCompareAnd query).map jsTrim
      "compare " ++ String.intercalate " vs " cards ++ " detailed features benefits india"
    else if strIncludes query "cashback" then
      "highest cashback rewards Indian credit cards latest offers"
    else if strIncludes query "travel" || strIncludes query "lounge" then
      "best Indian airport lounge access credit cards international travel benefits"
    else if strIncludes query "premium" || strIncludes query "lifestyle" then
      "top Indian premium credit cards exclusive lifestyle benefits luxury privileges"
    else if strIncludes query "business" then
      "best Indian business credit cards corporate benefits GST features"
    else if strIncludes query "first" || strIncludes query "new" then
      "best first credit cards India beginners no credit history"
    else if strIncludes query "reward" then
      "highest reward rate Indian credit cards points multipliers"
    else ""
  { searchQuery := baseSearchTerms ++ " " ++ additionalTerms
      ++ " (site:cardinsider.com OR site:bankbazaar.com OR site:cardexpert.in)" }

/-! ## Response Generator (`generateResponse`) -/

/-- The fixed expert system prompt, verbatim from the source constant. -/
def CREDIT_CARD_EXPERT_PROMPT : String :=
  "You are a concise credit card expert focusing on the Indian market. ALWAYS use tables for comparisons, never use bullet points or paragraphs for comparing features.

RESPONSE FORMAT RULES:
1. ALL comparisons MUST be in table format
2. NEVER use bullet points or paragraphs for comparisons
3. Use tables with the following structure:

### Basic Features
| Feature | Card 1 | Card 2 |
|---------|--------|--------|
| Annual Fee | ₹XXX | ₹YYY |
| Welcome Benefits | Detail | Detail |
| Income Required | ₹XXX | ₹YYY |

### Reward Rates
| Category | Card 1 | Card 2 |
|----------|--------|--------|
| General Spend | X% | Y% |
| Dining | X% | Y% |
| Travel | X% | Y% |
| Shopping | X% | Y% |

### Additional Benefits
| Benefit | Card 1 | Card 2 |
|---------|--------|--------|
| Lounge Access | Detail | Detail |
| Insurance | Detail | Detail |
| Offers | Detail | Detail |

### Best Suited For
| Use Case | Best Card | Reason |
|----------|-----------|---------|
| Overall | Name | Why |
| Rewards | Name | Why |
| Travel | Name | Why |
| Shopping | Name | Why |

IMPORTANT:
- Use ₹ symbol for all amounts
- Include actual numbers/percentages
- Present ALL comparisons in tables
- No bullet points or paragraphs for comparing features
- Add table headers for each comparison section
- Ensure proper markdown table formatting

Remember to:
- Keep Indian context central
- Use local examples
- Reference local regulations
- Consider Indian spending patterns"

/-- Provider response model: HTTP status plus the parsed body fields used by
the source (`choices[0].message.content`, `citations`). JS `response.ok` is
`200 ≤ status < 300`. -/
structure FetchResp where
  status : Nat
  body : String
  content : String
  citations : List String
deriving DecidableEq, Repr

/-- One request issued to the provider: the message array and the computed
search query sent in the JSON body. -/
structure Request where
  messages : List Msg
  searchQuery : String
deriving DecidableEq, Repr

/-- Observable state threaded through `generateResponse`: the rate-limiter
map, the current time in ms (advanced by the synchronous retry delays), the
requests sent to the provider so far, and the delays slept so far. -/
structure GenState where
  rl : RLState
  now : Nat
  sent : List Request
  delays : List Nat
deriving DecidableEq, Repr

/-- Outcome of the `try` block of one attempt. -/
inductive TryOutcome where
  | success (content : String) (citations : List String)
  | thrown (msg : String)
deriving DecidableEq, Repr

/-- Final outcome of `generateResponse`. -/
inductive GenOutcome where
  | ok (content : String) (citations : List String)
  | error (msg : String)
deriving DecidableEq, Repr

/-- `MAX_RETRIES` from the source. -/
def MAX_RETRIES : Nat := 3

/-- `RETRY_DELAY` (ms) from the source. -/
def RETRY_DELAY : Nat := 1000

/-- The fixed market qualifier prepended to every user turn. -/
def qualifier : String := "For Indian credit cards only: "

/-- The message of the validation error thrown by `generateResponse`. -/
def invalidStructureMsg : String :=
  "Invalid message structure: After system messages, user and assistant roles must alternate"

/-- `messages.map(...)`: prepend the market qualifier to every user turn. -/
def modifyMessages (messages : List Msg) : List Msg :=
  messages.map fun msg =>
    if msg.role == "user" then { msg with content := qualifier ++ msg.content } else msg

/-- The pure request-construction part of one attempt: qualifier rewriting,
user-query extraction (JS `Array.prototype.find`, i.e. the first user turn of
the modified array, lower-cased), search-params computation, and system-prompt
injection when the first turn is not already a system turn. -/
def buildRequest (messages : List Msg) : Request :=
  let modifiedMessages := modifyMessages messages
  let userQuery := ((modifiedMessages.find? (fun m => m.role == "user")).map
    (fun m => jsToLower m.content)).getD ""
  let searchParams := enhanceSearchParams userQuery
  let messagesWithSystemPrompt :=
    if (modifiedMessages.head?.map Msg.role) == some "system" then modifiedMessages
    else { role := "system", content := CREDIT_CARD_EXPERT_PROMPT } :: modifiedMessages
  { messages := messagesWithSystemPrompt, searchQuery := searchParams.searchQuery }

/-- The `try` block of `generateResponse`, one attempt: validation gate,
rate-limit gate, request construction, provider call. JS `throw` is modelled
as `TryOutcome.thrown` carrying the error message. (The source formats the
reset instant with `toLocaleTimeString`; the model prints the numeric instant
— the retry logic only tests for the "Rate limit exceeded" prefix.) -/
def attemptOnce (fetch : Request → Nat → FetchResp) (messages : List Msg)
    (st : GenState) : TryOutcome × GenState :=
  if validateMessageStructure messages = false then
    (TryOutcome.thrown invalidStructureMsg, st)
  else
    let check := checkRateLimit st.now st.rl
    let st1 : GenState := { st with rl := check.2 }
    if check.1.allowed = false then
      (TryOutcome.thrown ("Rate limit exceeded. Please try again after "
        ++ toString (check.1.resetTime.getD 0)), st1)
    else
      let req := buildRequest messages
      let resp := fetch req st1.sent.length
      let st2 : GenState := { st1 with sent := st1.sent ++ [req] }
      if 200 ≤ resp.status ∧ resp.status < 300 then
        (TryOutcome.success resp.content resp.citations, st2)
      else
        (TryOutcome.thrown ("Perplexity API error (" ++ toString resp.status ++ "): "
          ++ resp.body), st2)

/-- The error translation applied after the retry loop
(`error.message.includes("429") ? ... : ...`). -/
def classifyError (msg : String) : String :=
  if strIncludes msg "429" then
    "Service is temporarily busy. Please try again in a few moments."
  else if strIncludes msg "401" then
    "Authentication error. Please check your API key."
  else if strIncludes msg "5" then
    "Service is experiencing issues. Please try again later."
  else
    "An unexpected error occurred. Please try again."

/-- The `catch` / retry loop of `generateResponse`. `fuel` is the number of
retries still available (`MAX_RETRIES - retryCount`); every recursive call in
the source increments `retryCount` under the guard
`retryCount < MAX_RETRIES`, so the fuel-exhausted branch is unreachable when
entered through `generateResponse` below. -/
def generateResponseF (fetch : Request → Nat → FetchResp) (messages : List Msg) :
    Nat → Nat → GenState → GenOutcome × GenState
  | fuel, retryCount, st =>
    match attemptOnce fetch messages st with
    | (TryOutcome.success c cits, st1) => (GenOutcome.ok c cits, st1)
    | (TryOutcome.thrown msg, st1) =>
      if strIncludes msg "Rate limit exceeded" then (GenOutcome.error msg, st1)
      else if retryCount < MAX_RETRIES then
        match fuel with
        | 0 => (GenOutcome.error (classifyError msg), st1)
        | fuel' + 1 =>
          let d := RETRY_DELAY * (retryCount + 1)
          generateResponseF fetch messages fuel' (retryCount + 1)
            { st1 with now := st1.now + d, delays := st1.delays ++ [d] }
      else (GenOutcome.error (classifyError msg), st1)

/-- `generateResponse(messages, retryCount)` with the provider call, the
module state and the clock passed explicitly. -/
def generateResponse (fetch : Request → Nat → FetchResp) (messages : List Msg)
    (retryCount : Nat) (st : GenState) : GenOutcome × GenState :=
  generateResponseF fetch messages (MAX_RETRIES - retryCount) retryCount st

/-- The keyword rules of the Search-Query Enhancer as an ordered
(predicate, phrase) list, in the fixed priority order of the source:
comparison, cashback, travel/lounge, premium/lifestyle, business, first/new,
reward. -/
def searchRules : List ((String → Bool) × (String → String)) :=
  [(fun q => strIncludes q "vs" || strIncludes q "compare",
      fun q => "compare "
        ++ String.intercalate " vs " ((splitVsCompareAnd q).map jsTrim)
        ++ " detailed features benefits india"),
   (fun q => strIncludes q "cashback",
      fun _ => "highest cashback rewards Indian credit cards latest offers"),
   (fun q => strIncludes q "travel" || strIncludes q "lounge",
      fun _ => "best Indian airport lounge access credit cards international travel benefits"),
   (fun q => strIncludes q "premium" || strIncludes q "lifestyle",
      fun _ => "top Indian premium credit cards exclusive lifestyle benefits luxury privileges"),
   (fun q => strIncludes q "business",
      fun _ => "best Indian business credit cards corporate benefits GST features"),
   (fun q => strIncludes q "first" || strIncludes q "new",
      fun _ => "best first credit cards India beginners no credit history"),
   (fun q => strIncludes q "reward",
      fun _ => "highest reward rate Indian credit cards points multipliers")]

/-- First-match-wins evaluation of an ordered rule list. -/
def firstMatchRule : List ((String → Bool) × (String → String)) → String → String
  | [], _ => ""
  | rule :: rest, q => if rule.1 q then rule.2 q else firstMatchRule rest q

/-- C7: the cashback query contains the cashback phrase and the fixed
site-restriction clause; the comparison query contains a
"compare hdfc vs axis" fragment; and `enhanceSearchParams` is exactly the
first-match-wins evaluation of the ordered rule list `searchRules` between
the fixed base phrase and site clause. -/
theorem enhanceSearchParams_spec :
    strIncludes (enhanceSearchParams "best cashback card").searchQuery
        "highest cashback rewards Indian credit cards latest offers" = true
    ∧ strIncludes (enhanceSearchParams "best cashback card").searchQuery
        "(site:cardinsider.com OR site:bankbazaar.com OR site:cardexpert.in)" = true
    ∧ strIncludes (enhanceSearchParams "hdfc vs axis").searchQuery
        "compare hdfc vs axis" = true
    ∧ (∀ q, (enhanceSearchParams q).searchQuery
        = "latest Indian credit cards" ++ " " ++ firstMatchRule searchRules q
          ++ " (site:cardinsider.com OR site:bankbazaar.com OR site:cardexpert.in)") := by
  refine ⟨by decide, by decide, by decide, ?_⟩
  intro q
  rfl

/-- C6 counterexample: in a conversation with two user turns ("cashback"
first, "best travel card" last), the request actually sent to the provider
carries the search query computed from the first user turn (the cashback
phrase), which differs from the query the last user turn would produce — JS
`Array.prototype.find` returns the first match, not the latest. -/
theorem searchQuery_last_user_counterexample :
    (generateResponse (fun _ _ => ⟨200, "", "ok", []⟩)
        [⟨"user", "cashback"⟩, ⟨"assistant", "x"⟩, ⟨"user", "best travel card"⟩]
        0 ⟨[], 0, [], []⟩).2.sent.map Request.searchQuery
      = [(enhanceSearchParams (jsToLower (qualifier ++ "cashback"))).searchQuery]
    ∧ (enhanceSearchParams (jsToLower (qualifier ++ "cashback"))).searchQuery
      ≠ (enhanceSearchParams (jsToLower (qualifier ++ "best travel card"))).searchQuery := by
  decide

/-- C6 amended: the search query sent to the provider is computed from the
lower-cased, qualifier-prefixed content of the FIRST user turn of the
conversation (JS `Array.prototype.find` returns the first match), for every
conversation that has a user turn. -/
theorem searchQuery_first_user_amended (messages : List Msg) (m : Msg)
    (h : messages.find? (fun m => m.role == "user") = some m) :
    (buildRequest messages).searchQuery
      = (enhanceSearchParams (jsToLower (qualifier ++ m.content))).searchQuery := by
  have hrole : (m.role == "user") = true := by
    have hr := List.find?_some h
    exact hr
  have hcomp : ((fun x : Msg => x.role == "user") ∘ (fun msg : Msg =>
      if msg.role == "user" then { msg with content := qualifier ++ msg.content } else msg))
      = (fun x : Msg => x.role == "user") := by
    funext x
    by_cases hx : (x.role == "user") = true <;> simp [Function.comp, hx]
  have hrole' : m.role = "user" := by simpa using hrole
  simp only [buildRequest, modifyMessages]
  rw [List.find?_map, hcomp, h]
  simp [hrole']

/-- Witness for the amended C6 theorem at a concrete single-user conversation. -/
theorem searchQuery_first_user_amended_witness :
    ([⟨"user", "cashback"⟩] : List Msg).find? (fun m => m.role == "user")
        = some ⟨"user", "cashback"⟩
    ∧ (buildRequest [⟨"user", "cashback"⟩]).searchQuery
      = (enhanceSearchParams (jsToLower (qualifier ++ "cashback"))).searchQuery :=
  ⟨by decide, searchQuery_first_user_amended [⟨"user", "cashback"⟩] ⟨"user", "cashback"⟩
    (by decide)⟩

/-- C1 counterexample: on an invalid conversation (two consecutive user
turns), `generateResponse` does not fail immediately with the validation
error and the failure IS retried: the thrown validation error is caught by
the generic `catch` handler, the attempt is repeated three times (with delays
1000, 2000, 3000 ms), and the surfaced error is the generic unexpected-error
message rather than `invalidStructureMsg`. (No request reaches the provider:
`sent` stays empty.) -/
theorem generateResponse_invalid_counterexample :
    generateResponse (fun _ _ => ⟨200, "", "ok", []⟩)
        [⟨"user", "a"⟩, ⟨"user", "b"⟩] 0 ⟨[], 0, [], []⟩
      = (GenOutcome.error "An unexpected error occurred. Please try again.",
         ⟨[], 6000, [], [1000, 2000, 3000]⟩)
    ∧ "An unexpected error occurred. Please try again." ≠ invalidStructureMsg := by
  decide

/-- C1 amended: for every conversation that fails message-structure
validation, each attempt of `generateResponse` aborts before any network call
(nothing is ever sent to the provider and the rate limiter is not charged),
but the validation failure is not propagated as such: the generic handler
retries it `MAX_RETRIES` = 3 times with synchronous delays of 1000, 2000 and
3000 ms, and the final surfaced error is the generic unexpected-error
message, not the `InvalidStructure` validation error. -/
theorem generateResponse_invalid_spec (fetch : Request → Nat → FetchResp)
    (messages : List Msg) (h : validateMessageStructure messages = false) :
    generateResponse fetch messages 0 ⟨[], 0, [], []⟩
      = (GenOutcome.error "An unexpected error occurred. Please try again.",
         ⟨[], 6000, [], [1000, 2000, 3000]⟩) := by
  have hstep : ∀ st : GenState,
      attemptOnce fetch messages st = (TryOutcome.thrown invalidStructureMsg, st) := by
    intro st
    simp [attemptOnce, h]
  have hmsg : strIncludes invalidStructureMsg "Rate limit exceeded" = false := by decide
  have hcls : classifyError invalidStructureMsg
      = "An unexpected error occurred. Please try again." := by decide
  simp [generateResponse, generateResponseF, hstep, hmsg, hcls, MAX_RETRIES, RETRY_DELAY]

/-- Witness for the amended C1 theorem at a concrete invalid conversation. -/
theorem generateResponse_invalid_spec_witness :
    validateMessageStructure [⟨"assistant", "a"⟩, ⟨"assistant", "b"⟩] = false
    ∧ generateResponse (fun _ _ => ⟨500, "", "", []⟩)
        [⟨"assistant", "a"⟩, ⟨"assistant", "b"⟩] 0 ⟨[], 0, [], []⟩
      = (GenOutcome.error "An unexpected error occurred. Please try again.",
         ⟨[], 6000, [], [1000, 2000, 3000]⟩) :=
  ⟨by decide, generateResponse_invalid_spec _ _ (by decide)⟩

theorem listContains_of_prefix (p l : List Char) (h : p <+: l) :
    listContains l p = true := by
  cases l with
  | nil =>
    have hp : p = [] := List.prefix_nil.mp h
    simp [hp, listContains, List.isEmpty]
  | cons c r =>
    have hpre : p.isPrefixOf (c :: r) = true := List.isPrefixOf_iff_prefix.mpr h
    simp [listContains, hpre]

theorem strIncludes_rateLimitMsg (x : String) :
    strIncludes ("Rate limit exceeded. Please try again after " ++ x)
      "Rate limit exceeded" = true := by
  apply listContains_of_prefix
  rw [String.data_append]
  exact List.IsPrefix.trans
    (by decide : "Rate limit exceeded".data <+:
      "Rate limit exceeded. Please try again after ".data)
    (List.prefix_append _ _)

/-- C3: (a) with a provider that fails with HTTP 429 on every attempt,
`generateResponse` makes exactly 4 total attempts (the 4 identical requests
recorded in `sent`), sleeping 1000, 2000 and 3000 ms before the respective
retries, and fails with the ServiceBusy user-facing message; (b) an error
caused by the internal rate limiter (its message starts with "Rate limit
exceeded") is propagated immediately, with no retry, no delay and no request
sent. -/
theorem generateResponse_429_spec :
    (∀ (messages : List Msg) (fetch : Request → Nat → FetchResp)
        (c : String) (cits : List String),
      validateMessageStructure messages = true →
      fetch = (fun _ _ => ⟨429, "", c, cits⟩) →
      generateResponse fetch messages 0 ⟨[], 0, [], []⟩
        = (GenOutcome.error "Service is temporarily busy. Please try again in a few moments.",
           ⟨[(0, ⟨4, 60000⟩)], 6000,
            [buildRequest messages, buildRequest messages,
             buildRequest messages, buildRequest messages],
            [1000, 2000, 3000]⟩))
    ∧ (∀ (messages : List Msg) (fetch : Request → Nat → FetchResp)
        (st : GenState) (b : Bucket),
      validateMessageStructure messages = true →
      st.rl.lookup (st.now / RATE_LIMIT_windowMs) = some b →
      RATE_LIMIT_maxRequests ≤ b.count →
      generateResponse fetch messages 0 st
        = (GenOutcome.error ("Rate limit exceeded. Please try again after "
            ++ toString b.resetTime), st)) := by
  constructor
  · intro messages fetch c cits hv hf
    subst hf
    have hc0 : checkRateLimit 0 [] =
        ({ allowed := true, resetTime := none }, [(0, ⟨1, 60000⟩)]) := by decide
    have hc1 : checkRateLimit 1000 [(0, ⟨1, 60000⟩)] =
        ({ allowed := true, resetTime := none }, [(0, ⟨2, 60000⟩)]) := by decide
    have hc3 : checkRateLimit 3000 [(0, ⟨2, 60000⟩)] =
        ({ allowed := true, resetTime := none }, [(0, ⟨3, 60000⟩)]) := by decide
    have hc6 : checkRateLimit 6000 [(0, ⟨3, 60000⟩)] =
        ({ allowed := true, resetTime := none }, [(0, ⟨4, 60000⟩)]) := by decide
    have hnotok : ¬(200 ≤ 429 ∧ 429 < 300) := by omega
    have hmsg : strIncludes ("Perplexity API error (" ++ toString 429 ++ "): ")
        "Rate limit exceeded" = false := by decide
    have hcls : classifyError ("Perplexity API error (" ++ toString 429 ++ "): ")
        = "Service is temporarily busy. Please try again in a few moments." := by decide
    simp [generateResponse, generateResponseF, attemptOnce, hv, hc0, hc1, hc3, hc6,
      hnotok, hmsg, hcls, MAX_RETRIES, RETRY_DELAY]
  · intro messages fetch st b hv hb hcount
    have hcrl : checkRateLimit st.now st.rl =
        ({ allowed := false, resetTime := some b.resetTime }, st.rl) := by
      simp [checkRateLimit, hb, hcount]
    simp [generateResponse, generateResponseF, attemptOnce, hv, hcrl,
      strIncludes_rateLimitMsg]

/-- Witness for the C3 theorem: both parts at concrete inputs — an
always-429 provider on a one-turn conversation, and a pre-filled bucket that
makes the rate limiter reject. -/
theorem generateResponse_429_spec_witness :
    (generateResponse (fun _ _ => ⟨429, "", "x", []⟩) [⟨"user", "hi"⟩] 0 ⟨[], 0, [], []⟩
      = (GenOutcome.error "Service is temporarily busy. Please try again in a few moments.",
         ⟨[(0, ⟨4, 60000⟩)], 6000,
          [buildRequest [⟨"user", "hi"⟩], buildRequest [⟨"user", "hi"⟩],
           buildRequest [⟨"user", "hi"⟩], buildRequest [⟨"user", "hi"⟩]],
          [1000, 2000, 3000]⟩))
    ∧ (generateResponse (fun _ _ => ⟨429, "", "x", []⟩) [⟨"user", "hi"⟩] 0
        ⟨[(0, ⟨10, 77777⟩)], 0, [], []⟩
      = (GenOutcome.error ("Rate limit exceeded. Please try again after "
          ++ toString 77777), ⟨[(0, ⟨10, 77777⟩)], 0, [], []⟩)) :=
  ⟨(generateResponse_429_spec).1 [⟨"user", "hi"⟩] _ "x" [] (by decide) rfl,
   (generateResponse_429_spec).2 [⟨"user", "hi"⟩] _ ⟨[(0, ⟨10, 77777⟩)], 0, [], []⟩
     ⟨10, 77777⟩ (by decide) (by decide) (by decide)⟩

theorem attemptOnce_sent (fetch : Request → Nat → FetchResp) (messages : List Msg)
    (st : GenState) :
    (attemptOnce fetch messages st).2.sent = st.sent
      ∨ (attemptOnce fetch messages st).2.sent = st.sent ++ [buildRequest messages] := by
  unfold attemptOnce
  dsimp only
  split
  · exact Or.inl rfl
  · split
    · exact Or.inl rfl
    · split
      · exact Or.inr rfl
      · exact Or.inr rfl

theorem attemptOnce_now (fetch : Request → Nat → FetchResp) (messages : List Msg)
    (st : GenState) :
    (attemptOnce fetch messages st).2.now = st.now := by
  unfold attemptOnce
  dsimp only
  split
  · rfl
  · split
    · rfl
    · split
      · rfl
      · rfl

theorem generateResponseF_sent (fetch : Request → Nat → FetchResp) (messages : List Msg) :
    ∀ fuel retryCount st r,
      r ∈ (generateResponseF fetch messages fuel retryCount st).2.sent →
      r ∈ st.sent ∨ r = buildRequest messages := by
  intro fuel
  induction fuel with
  | zero =>
    intro retryCount st r hr
    rw [generateResponseF] at hr
    rcases ha : attemptOnce fetch messages st with ⟨o, st1⟩
    rw [ha] at hr
    have hsent := attemptOnce_sent fetch messages st
    rw [ha] at hsent
    have hfin : r ∈ st1.sent → r ∈ st.sent ∨ r = buildRequest messages := by
      intro hmem
      rcases hsent with hs | hs
      · rw [hs] at hmem
        exact Or.inl hmem
      · rw [hs] at hmem
        rcases List.mem_append.mp hmem with hm | hm
        · exact Or.inl hm
        · exact Or.inr (by simpa using hm)
    cases o with
    | success c cits => exact hfin (by simpa using hr)
    | thrown msg =>
      simp only at hr
      split at hr
      · exact hfin (by simpa using hr)
      · split at hr
        · exact hfin (by simpa using hr)
        · exact hfin (by simpa using hr)
  | succ fuel ih =>
    intro retryCount st r hr
    rw [generateResponseF] at hr
    rcases ha : attemptOnce fetch messages st with ⟨o, st1⟩
    rw [ha] at hr
    have hsent := attemptOnce_sent fetch messages st
    rw [ha] at hsent
    have hfin : r ∈ st1.sent → r ∈ st.sent ∨ r = buildRequest messages := by
      intro hmem
      rcases hsent with hs | hs
      · rw [hs] at hmem
        exact Or.inl hmem
      · rw [hs] at hmem
        rcases List.mem_append.mp hmem with hm | hm
        · exact Or.inl hm
        · exact Or.inr (by simpa using hm)
    cases o with
    | success c cits => exact hfin (by simpa using hr)
    | thrown msg =>
      simp only at hr
      split at hr
      · exact hfin (by simpa using hr)
      · split at hr
        · rcases ih (retryCount + 1)
            { st1 with now := st1.now + RETRY_DELAY * (retryCount + 1),
                       delays := st1.delays ++ [RETRY_DELAY * (retryCount + 1)] } r hr
            with hm | hm
          · exact hfin (by simpa using hm)
          · exact Or.inr hm
        · exact hfin (by simpa using hr)

theorem buildRequest_user_content (messages : List Msg) :
    ∀ m ∈ (buildRequest messages).messages, m.role = "user" →
      ∃ m0 ∈ messages, m0.role = "user" ∧ m.content = qualifier ++ m0.content := by
  intro m hm hrole
  have hmm : m ∈ modifyMessages messages := by
    simp only [buildRequest] at hm
    split at hm
    · exact hm
    · rcases List.mem_cons.mp hm with heq | hmem
      · rw [heq] at hrole
        simp at hrole
      · exact hmem
  rcases List.mem_map.mp hmm with ⟨m0, hm0, hfm⟩
  by_cases h0 : (m0.role == "user") = true
  · rw [if_pos h0] at hfm
    refine ⟨m0, hm0, by simpa using h0, ?_⟩
    rw [← hfm]
  · rw [if_neg h0] at hfm
    subst hfm
    exact absurd (by simpa using hrole) h0

/-- C10: `generateResponse` never mutates its input conversation: the
qualifier rewriting and the system-prompt injection build new arrays and
every retry restarts from the original `messages`, so every request recorded
in `sent` during a run (from any `retryCount` and any starting state) equals
`buildRequest messages`, in which each user turn's content is the fixed
qualifier prepended exactly once to the corresponding original user turn's
content — regardless of how many retries occur. -/
theorem generateResponse_no_mutation (fetch : Request → Nat → FetchResp)
    (messages : List Msg) (retryCount : Nat) (st : GenState) (r : Request)
    (hr : r ∈ (generateResponse fetch messages retryCount st).2.sent) :
    r ∈ st.sent ∨ (r = buildRequest messages
      ∧ ∀ m ∈ r.messages, m.role = "user" →
          ∃ m0 ∈ messages, m0.role = "user" ∧ m.content = qualifier ++ m0.content) := by
  rcases generateResponseF_sent fetch messages (MAX_RETRIES - retryCount) retryCount st r hr
    with hm | hm
  · exact Or.inl hm
  · subst hm
    exact Or.inr ⟨rfl, buildRequest_user_content messages⟩

/-- Witness for the C10 theorem: the single request sent for a concrete
one-turn conversation is `buildRequest` of the original input. -/
theorem generateResponse_no_mutation_witness :
    ((generateResponse (fun _ _ => ⟨200, "", "ok", []⟩) [⟨"user", "hi"⟩] 0
        ⟨[], 0, [], []⟩).2.sent = [buildRequest [⟨"user", "hi"⟩]])
    ∧ (buildRequest [⟨"user", "hi"⟩] ∈ ([] : List Request)
        ∨ (buildRequest [⟨"user", "hi"⟩] = buildRequest [⟨"user", "hi"⟩]
          ∧ ∀ m ∈ (buildRequest [⟨"user", "hi"⟩]).messages, m.role = "user" →
              ∃ m0 ∈ [(⟨"user", "hi"⟩ : Msg)], m0.role = "user"
                ∧ m.content = qualifier ++ m0.content)) :=
  ⟨rfl, generateResponse_no_mutation (fun _ _ => ⟨200, "", "ok", []⟩)
    [⟨"user", "hi"⟩] 0 ⟨[], 0, [], []⟩ (buildRequest [⟨"user", "hi"⟩])
    (by rw [(rfl : (generateResponse (fun _ _ => ⟨200, "", "ok", []⟩) [⟨"user", "hi"⟩] 0
        ⟨[], 0, [], []⟩).2.sent = [buildRequest [⟨"user", "hi"⟩]])]
        exact List.mem_cons_self _ _)⟩

/-! ## Markdown Enhancer (`enhanceMarkdown`, client source)

Each JS `String.replace(regex, ...)` with the `g` flag is modelled as a
left-to-right scanner: at every position the specific pattern is tried (with
the backtracking behaviour of the concrete regex spelled out); on a match the
replacement is emitted and scanning resumes after the consumed text,
otherwise one char is copied. Fuel is the input length — every pattern below
consumes at least one char per match, and the no-match step consumes one. -/

/-- Generic global-replace scanner. -/
def replaceScanF (pat : List Char → Option (List Char × List Char)) :
    Nat → List Char → List Char
  | _, [] => []
  | 0, l => l
  | fuel + 1, c :: rest =>
    match pat (c :: rest) with
    | some (rep, rest') => rep ++ replaceScanF pat fuel rest'
    | none => c :: replaceScanF pat fuel rest

/-- Run a global replace with fuel = input length. -/
def jsReplace (pat : List Char → Option (List Char × List Char))
    (l : List Char) : List Char :=
  replaceScanF pat l.length l

/-- Split at the first `|`: (segment before it, rest after it). -/
def splitAtPipe : List Char → Option (List Char × List Char)
  | [] => none
  | c :: rest =>
    if c = '|' then some ([], rest)
    else (splitAtPipe rest).map (fun p => (c :: p.1, p.2))

/-- `\s*([^|]+)\s*` matched against a whole inter-pipe segment, greedy with
backtracking: the leading `\s*` backs off just enough for `([^|]+)` to take
at least one char, and `([^|]+)` then greedily takes the rest of the segment
(the trailing `\s*` matches empty). Fails on an empty segment. -/
def grabPlus (seg : List Char) : Option (List Char) :=
  match seg with
  | [] => none
  | _ :: _ =>
    let w := (seg.takeWhile jsWS).length
    if w = seg.length then some (seg.drop (w - 1)) else some (seg.drop w)

/-- `\s*([^|]*)\s*` against a segment: greedy `\s*`, then the rest. -/
def grabStar (seg : List Char) : List Char :=
  seg.drop (seg.takeWhile jsWS).length

/-- The replacement callback of the table-row rule: rows whose raw captured
column contains `---` (header/divider rows) map to the empty string; data
rows become `**col1**: col2 - _col3_` (the third part only when `col3` trims
to nonempty). -/
def tableRowReplacement (col1 col2 col3 : List Char) : List Char :=
  if listContains col1 ['-', '-', '-'] || listContains col2 ['-', '-', '-']
      || listContains col3 ['-', '-', '-'] then []
  else
    "**".data ++ trimChars col1 ++ "**: ".data ++ trimChars col2
      ++ (if trimChars col3 ≠ [] then " - _".data ++ trimChars col3 ++ ['_'] else [])

/-- One match of `/\|\s*([^|]+)\s*\|\s*([^|]+)\s*\|\s*([^|]*)\s*\|/`. -/
def tryTableRow (l : List Char) : Option (List Char × List Char) :=
  match l with
  | '|' :: r0 =>
    match splitAtPipe r0 with
    | some (seg1, r1) =>
      match grabPlus seg1 with
      | some col1 =>
        match splitAtPipe r1 with
        | some (seg2, r2) =>
          match grabPlus seg2 with
          | some col2 =>
            match splitAtPipe r2 with
            | some (seg3, r3) => some (tableRowReplacement col1 col2 (grabStar seg3), r3)
            | none => none
          | none => none
        | none => none
      | none => none
    | none => none
  | _ => none

/-- The character class `[-:\|\s]` of the divider-row rule. -/
def divClass (c : Char) : Bool :=
  c == '-' || c == ':' || c == '|' || jsWS c

/-- Rests after consuming a nonempty run of `p`-chars, longest run first
(the backtracking order of a greedy `X+`). -/
def runRests (p : Char → Bool) (l : List Char) : List (List Char) :=
  let m := (l.takeWhile p).length
  (List.range m).map (fun i => l.drop (m - i))

/-- `\s*\n`: the greedy `\s*` backtracks to the last `\n` inside the leading
whitespace run; the rest after that `\n` is returned. -/
def wsThenNL (l : List Char) : Option (List Char) :=
  let pre := l.takeWhile jsWS
  if pre.contains '\n' then
    some ((pre.reverse.takeWhile (fun c => c ≠ '\n')).reverse ++ l.drop pre.length)
  else none

/-- One match of
`/\|\s*[-:\|\s]+\s*\|\s*[-:\|\s]+\s*\|(\s*[-:\|\s]+\s*\|)?\s*\n/`, replaced
by the empty string. Since `\s ⊆ [-:\|\s]`, each `\s*[-:\|\s]+\s*` block is
equivalent to one nonempty run of class chars, tried longest first; the
optional third block is tried present first. -/
def tryDividerRow (l : List Char) : Option (List Char × List Char) :=
  match l with
  | '|' :: r0 =>
    (runRests divClass r0).findSome? fun r1 =>
      match r1 with
      | '|' :: r2 =>
        (runRests divClass r2).findSome? fun r3 =>
          match r3 with
          | '|' :: r4 =>
            (((runRests divClass r4).findSome? fun r5 =>
                match r5 with
                | '|' :: r6 => (wsThenNL r6).map (fun rest => (([] : List Char), rest))
                | _ => none)
              <|> (wsThenNL r4).map (fun rest => (([] : List Char), rest)))
          | _ => none
      | _ => none
  | _ => none

/-- Match a literal char sequence; returns the rest. -/
def matchLit : List Char → List Char → Option (List Char)
  | [], l => some l
  | _ :: _, [] => none
  | c :: cs, x :: xs => if c = x then matchLit cs xs else none

/-- Rests after a (possibly empty) prefix of the leading whitespace run,
longest first (backtracking order of a greedy `\s*`). -/
def wsRests (l : List Char) : List (List Char) :=
  let m := (l.takeWhile jsWS).length
  (List.range (m + 1)).map (fun i => l.drop (m - i))

/-- `content.split(/\|\||\|/)` of the Best-Suited-For callback ( `||` is the
preferred alternative at each position). -/
def splitPipesF : Nat → List Char → List (List Char)
  | _, [] => [[]]
  | 0, l => [l]
  | fuel + 1, c :: rest =>
    if c = '|' then
      match rest with
      | '|' :: rest2 => [] :: splitPipesF fuel rest2
      | _ => [] :: splitPipesF fuel rest
    else
      match splitPipesF fuel rest with
      | t :: ts => (c :: t) :: ts
      | [] => [[c]]

/-- The item loop of the Best-Suited-For callback (`i += 3`; an item triple
makes a `- **a**: b - _c_` line, a trailing pair drops the emphasis part, a
trailing single is skipped). -/
def bsfList : List (List Char) → List Char
  | a :: b :: c :: rest =>
    "- **".data ++ trimChars a ++ "**: ".data ++ trimChars b
      ++ " - _".data ++ trimChars c ++ ['_'] ++ ['\n'] ++ bsfList rest
  | [a, b] => "- **".data ++ trimChars a ++ "**: ".data ++ trimChars b ++ ['\n']
  | _ => []

/-- The replacement of the Best-Suited-For rule: split the captured content
on pipes, keep items with nonempty trim; if any items remain emit the title
plus the bulleted list, else the title plus the content with pipes removed
and trimmed. -/
def bsfReplacement (content : List Char) : List Char :=
  let title := "### Best Suited For\n\n".data
  let items := (splitPipesF content.length content).filter
    (fun item => !(trimChars item).isEmpty)
  if items.length > 0 then title ++ bsfList items ++ ['\n']
  else title ++ trimChars (content.filter (fun c => c ≠ '|')) ++ ['\n']

/-- The optional captured group
`(\|[^\n]+\|[^\n]*\n\|[-:\|\s]+\|[^\n]*\n)?` of the Best-Suited-For rule:
a table header line followed by a divider line. `[^\n]+` backtracks to each
`|` inside the line, longest first. Returns the rest (the capture itself is
unused by the callback). -/
def tryTableDef (l : List Char) : Option (List Char) :=
  match l with
  | '|' :: r0 =>
    (let line := r0.takeWhile (fun c => c ≠ '\n')
     (List.range line.length).filterMap (fun i =>
        let j := line.length - 1 - i
        if 1 ≤ j ∧ line.get? j = some '|' then some (r0.drop (j + 1)) else none)).findSome?
      fun r1 =>
        let k := (r1.takeWhile (fun c => c ≠ '\n')).length
        match r1.drop k with
        | '\n' :: '|' :: r3 =>
          (runRests divClass r3).findSome? fun r4 =>
            match r4 with
            | '|' :: r5 =>
              let k2 := (r5.takeWhile (fun c => c ≠ '\n')).length
              match r5.drop k2 with
              | '\n' :: r6 => some r6
              | _ => none
            | _ => none
        | _ => none
  | _ => none

/-- `(.+)`: at least one non-newline char, greedy to the end of the line. -/
def contentLine (l : List Char) : Option (List Char × List Char) :=
  let c := l.takeWhile (fun c => c ≠ '\n')
  if c.isEmpty then none else some (c, l.drop c.length)

/-- One match of the Best-Suited-For rule
`/(?:##?\s*#?\s*Best Suited For[^\n]*\n+)(\|[^\n]+\|[^\n]*\n\|[-:\|\s]+\|[^\n]*\n)?(.+)/`:
one or two `#`, optional whitespace, an optional `#`, optional whitespace,
the literal title, the rest of that line, at least one newline, the optional
table-definition group (present preferred), and a nonempty content line. -/
def tryBSF (l : List Char) : Option (List Char × List Char) :=
  match l with
  | '#' :: r0 =>
    (match r0 with
      | '#' :: r1 => [r1, r0]
      | _ => [r0]).findSome? fun r1 =>
      (wsRests r1).findSome? fun r2 =>
        (match r2 with
          | '#' :: r3 => [r3, r2]
          | _ => [r2]).findSome? fun r3 =>
          (wsRests r3).findSome? fun r4 =>
            match matchLit "Best Suited For".data r4 with
            | none => none
            | some r5 =>
              let r6 := r5.drop ((r5.takeWhile (fun c => c ≠ '\n')).length)
              let nl := (r6.takeWhile (fun c => c = '\n')).length
              if nl = 0 then none
              else
                let r7 := r6.drop nl
                (match tryTableDef r7 with
                  | some r8 => (contentLine r8).map
                      (fun p : List Char × List Char => (bsfReplacement p.1, p.2))
                  | none => none)
                <|> (contentLine r7).map
                      (fun p : List Char × List Char => (bsfReplacement p.1, p.2))
  | _ => none

/-- One match of `/\|{2,}/`, replaced by `" - "`. -/
def tryMultiPipe (l : List Char) : Option (List Char × List Char) :=
  match l with
  | '|' :: '|' :: rest =>
    some (" - ".data, rest.dropWhile (fun c => c == '|'))
  | _ => none

/-- The second alternative `\s*\|$` of the edge-pipe rule (`m` flag): a
whitespace run, then a `|` that sits at the end of a line. -/
def tryTrailPipe (l : List Char) : Option (List Char) :=
  match l.drop (l.takeWhile jsWS).length with
  | '|' :: rest => if rest.head? = some '\n' ∨ rest = [] then some rest else none
  | _ => none

/-- The edge-pipe rule `/^\|\s*|\s*\|$/gm` (replace with empty): a scanner
carrying an at-line-start flag; the first alternative `^\|\s*` is preferred
where applicable. -/
def step5F : Nat → Bool → List Char → List Char
  | _, _, [] => []
  | 0, _, l => l
  | fuel + 1, atStart, c :: rest =>
    if atStart && (c == '|') then
      let w := rest.takeWhile jsWS
      let atStart' : Bool := match w.getLast? with
        | some '\n' => true
        | _ => false
      step5F fuel atStart' (rest.drop w.length)
    else
      match tryTrailPipe (c :: rest) with
      | some rest' => step5F fuel false rest'
      | none => c :: step5F fuel (c == '\n') rest

/-- One match of `/###([^\n]+)/`, replaced by `"### $1"`. -/
def tryH3 (l : List Char) : Option (List Char × List Char) :=
  match l with
  | '#' :: '#' :: '#' :: r =>
    let g := r.takeWhile (fun c => c ≠ '\n')
    if g.isEmpty then none else some ("### ".data ++ g, r.drop g.length)
  | _ => none

/-- One match of `/##([^\n]+)/`, replaced by `"## $1"`. -/
def tryH2 (l : List Char) : Option (List Char × List Char) :=
  match l with
  | '#' :: '#' :: r =>
    let g := r.takeWhile (fun c => c ≠ '\n')
    if g.isEmpty then none else some ("## ".data ++ g, r.drop g.length)
  | _ => none

/-- The rule `/(?<!\#)#([^\n#]+)/g → "# $1"`: a scanner carrying the
previous original char for the lookbehind. -/
def step8F : Nat → Option Char → List Char → List Char
  | _, _, [] => []
  | 0, _, l => l
  | fuel + 1, prev, c :: rest =>
    if c == '#' && prev != some '#' then
      let g := rest.takeWhile (fun x => x ≠ '\n' && x ≠ '#')
      if g.isEmpty then '#' :: step8F fuel (some '#') rest
      else "# ".data ++ g ++ step8F fuel g.getLast? (rest.drop g.length)
    else c :: step8F fuel (some c) rest

/-- One match of `/\n-([^\n]+)/`, replaced by `"\n- $1"`. -/
def tryDashLine (l : List Char) : Option (List Char × List Char) :=
  match l with
  | '\n' :: '-' :: r =>
    let g := r.takeWhile (fun c => c ≠ '\n')
    if g.isEmpty then none else some ("\n- ".data ++ g, r.drop g.length)
  | _ => none

/-- One match of `/([^\n])(\n#{1,3} )/`, replaced by `"$1\n\n$2"`. A hash run
longer than 3 cannot match (every shorter take is followed by `#`, not a
space). -/
def tryHeadBlank (l : List Char) : Option (List Char × List Char) :=
  match l with
  | c :: '\n' :: r =>
    if c == '\n' then none
    else
      let hs := r.takeWhile (fun x => x == '#')
      if 1 ≤ hs.length ∧ hs.length ≤ 3 ∧ (r.drop hs.length).head? = some ' ' then
        some (c :: '\n' :: '\n' :: '\n' :: (hs ++ [' ']), r.drop (hs.length + 1))
      else none
  | _ => none

/-- One match of the rule replacing a run of two or more newlines followed
by a dash with `"\n\n-"`. -/
def tryNLDash (l : List Char) : Option (List Char × List Char) :=
  match l with
  | '\n' :: '\n' :: r =>
    match r.dropWhile (fun c => c == '\n') with
    | '-' :: rest => some ("\n\n-".data, rest)
    | _ => none
  | _ => none

/-- One match of `/\n{3,}/`, replaced by `"\n\n"`. -/
def tryTripleNL (l : List Char) : Option (List Char × List Char) :=
  match l with
  | '\n' :: '\n' :: '\n' :: r =>
    some (['\n', '\n'], r.dropWhile (fun c => c == '\n'))
  | _ => none

/-- `enhanceMarkdown` from the client source: the twelve global replaces in
source order. -/
def enhanceMarkdownL (l0 : List Char) : List Char :=
  let l1 := jsReplace tryTableRow l0
  let l2 := jsReplace tryDividerRow l1
  let l3 := jsReplace tryBSF l2
  let l4 := jsReplace tryMultiPipe l3
  let l5 := step5F l4.length true l4
  let l6 := jsReplace tryH3 l5
  let l7 := jsReplace tryH2 l6
  let l8 := step8F l7.length none l7
  let l9 := jsReplace tryDashLine l8
  let l10 := jsReplace tryHeadBlank l9
  let l11 := jsReplace tryNLDash l10
  jsReplace tryTripleNL l11

/-- `enhanceMarkdown` on strings. -/
def enhanceMarkdown (s : String) : String :=
  ⟨enhanceMarkdownL s.data⟩

/-- C9: `enhanceMarkdown` turns the non-divider three-column table row
`| Annual Fee | ₹500 | ₹1000 |` into the single bolded line
`**Annual Fee**: ₹500 - _₹1000_`, and the output contains no pipe chars. -/
theorem enhanceMarkdown_tableRow :
    enhanceMarkdown "| Annual Fee | ₹500 | ₹1000 |" = "**Annual Fee**: ₹500 - _₹1000_"
    ∧ '|' ∉ (enhanceMarkdown "| Annual Fee | ₹500 | ₹1000 |").data := by
  decide

/-- C8 counterexample: `"# a"` is clean markdown with no pipe characters, yet
`enhanceMarkdown` is not idempotent on it: the heading-respacing rule inserts
an extra space on every application (`"# a"` ↦ `"#  a"` ↦ `"#   a"`). -/
theorem enhanceMarkdown_idem_counterexample :
    '|' ∉ ("# a" : String).data
    ∧ enhanceMarkdown "# a" = "#  a"
    ∧ enhanceMarkdown (enhanceMarkdown "# a") = "#   a"
    ∧ enhanceMarkdown (enhanceMarkdown "# a") ≠ enhanceMarkdown "# a" := by
  decide

theorem replaceScanF_id (pat : List Char → Option (List Char × List Char)) :
    ∀ l : List Char, (∀ t, t <:+ l → t ≠ [] → pat t = none) →
      ∀ fuel, replaceScanF pat fuel l = l := by
  intro l
  induction l with
  | nil => intro _ fuel; cases fuel <;> rfl
  | cons c rest ih =>
    intro h fuel
    cases fuel with
    | zero => rfl
    | succ fuel =>
      simp only [replaceScanF]
      rw [h (c :: rest) (List.suffix_refl _) (by simp)]
      rw [ih (fun t ht hne => h t (ht.trans (List.suffix_cons c rest)) hne) fuel]

/-- The substring `"\n-"` occurs in `l` (the trigger of the two dash rules). -/
def hasNLDash : List Char → Bool
  | a :: b :: rest => (a == '\n' && b == '-') || hasNLDash (b :: rest)
  | _ => false

theorem hasNLDash_cons_of (c : Char) (r : List Char) (h : hasNLDash r = true) :
    hasNLDash (c :: r) = true := by
  cases r with
  | nil => cases h
  | cons b rest => simp [hasNLDash, h]

theorem hasNLDash_suffix (t l : List Char) (ht : t <:+ l) (h : hasNLDash t = true) :
    hasNLDash l = true := by
  rcases ht with ⟨s, rfl⟩
  induction s with
  | nil => exact h
  | cons c s ih => exact hasNLDash_cons_of c _ ih

theorem hasNLDash_cons_iff (a : Char) (t : List Char) :
    hasNLDash (a :: t) = true ↔ (a = '\n' ∧ t.head? = some '-') ∨ hasNLDash t = true := by
  cases t with
  | nil => simp [hasNLDash]
  | cons b rest =>
    simp only [hasNLDash, Bool.or_eq_true, Bool.and_eq_true, beq_iff_eq, List.head?_cons,
      Option.some.injEq]

theorem hasNLDash_nl_dropWhile (r : List Char) :
    ∀ rest, r.dropWhile (fun c => c == '\n') = '-' :: rest → hasNLDash ('\n' :: r) = true := by
  induction r with
  | nil => intro rest h; cases h
  | cons c r2 ih =>
    intro rest h
    rw [List.dropWhile_cons] at h
    by_cases hc : (c == '\n') = true
    · rw [if_pos hc] at h
      have hn : c = '\n' := by simpa using hc
      subst hn
      exact hasNLDash_cons_of '\n' _ (ih rest h)
    · rw [if_neg hc] at h
      cases h
      simp [hasNLDash]

theorem tryTableRow_none (t : List Char) (h : '|' ∉ t) : tryTableRow t = none := by
  unfold tryTableRow
  split
  · simp at h
  · rfl

theorem tryDividerRow_none (t : List Char) (h : '|' ∉ t) : tryDividerRow t = none := by
  unfold tryDividerRow
  split
  · simp at h
  · rfl

theorem tryBSF_none (t : List Char) (h : '#' ∉ t) : tryBSF t = none := by
  unfold tryBSF
  split
  · simp at h
  · rfl

theorem tryMultiPipe_none (t : List Char) (h : '|' ∉ t) : tryMultiPipe t = none := by
  unfold tryMultiPipe
  split
  · simp at h
  · rfl

theorem tryH3_none (t : List Char) (h : '#' ∉ t) : tryH3 t = none := by
  unfold tryH3
  split
  · simp at h
  · rfl

theorem tryH2_none (t : List Char) (h : '#' ∉ t) : tryH2 t = none := by
  unfold tryH2
  split
  · simp at h
  · rfl

theorem tryDashLine_none (t : List Char) (h : hasNLDash t = false) : tryDashLine t = none := by
  unfold tryDashLine
  split
  · exact absurd h (by simp [hasNLDash])
  · rfl

theorem tryHeadBlank_none (t : List Char) (h : '#' ∉ t) : tryHeadBlank t = none := by
  unfold tryHeadBlank
  split
  · rename_i c r
    split
    · rfl
    · rw [if_neg]
      rintro ⟨h1, -, -⟩
      rcases hs : r.takeWhile (fun x => x == '#') with _ | ⟨y, ys⟩
      · rw [hs] at h1
        simp at h1
      · have hx : y ∈ r.takeWhile (fun x => x == '#') := by
          rw [hs]
          exact List.mem_cons_self _ _
        have hpx := List.mem_takeWhile_imp hx
        have hxr : y ∈ r := (List.takeWhile_sublist _).subset hx
        have hy : y = '#' := by simpa using hpx
        subst hy
        simp at h
        exact h.2 hxr
  · rfl

theorem tryNLDash_none (t : List Char) (h : hasNLDash t = false) : tryNLDash t = none := by
  unfold tryNLDash
  split
  · rename_i r
    split
    · rename_i rest hdrop
      have := hasNLDash_nl_dropWhile r rest hdrop
      rw [hasNLDash_cons_of '\n' _ this] at h
      cases h
    · rfl
  · rfl

theorem tryTrailPipe_none (t : List Char) (h : '|' ∉ t) : tryTrailPipe t = none := by
  unfold tryTrailPipe
  split
  · rename_i rest heq
    have : '|' ∈ t.drop (t.takeWhile jsWS).length := by
      rw [heq]
      exact List.mem_cons_self _ _
    exact absurd (List.drop_subset _ _ this) h
  · rfl

theorem step5F_id : ∀ (fuel : Nat) (b : Bool) (l : List Char), '|' ∉ l →
    step5F fuel b l = l := by
  intro fuel
  induction fuel with
  | zero => intro b l h; cases l <;> rfl
  | succ fuel ih =>
    intro b l h
    cases l with
    | nil => rfl
    | cons c rest =>
      have hc : (c == '|') = false := by
        simp only [beq_eq_false_iff_ne, ne_eq]
        intro hcc
        exact h (by simp [hcc])
      simp only [step5F, hc, Bool.and_false, Bool.false_eq_true, if_false,
        tryTrailPipe_none (c :: rest) h]
      rw [ih (c == '\n') rest (fun hm => h (by simp [hm]))]

theorem step8F_id : ∀ (fuel : Nat) (prev : Option Char) (l : List Char), '#' ∉ l →
    step8F fuel prev l = l := by
  intro fuel
  induction fuel with
  | zero => intro prev l h; cases l <;> rfl
  | succ fuel ih =>
    intro prev l h
    cases l with
    | nil => rfl
    | cons c rest =>
      have hc : (c == '#') = false := by
        simp only [beq_eq_false_iff_ne, ne_eq]
        intro hcc
        exact h (by simp [hcc])
      simp only [step8F, hc, Bool.false_and, Bool.false_eq_true, if_false]
      rw [ih (some c) rest (fun hm => h (by simp [hm]))]

theorem tryTripleNL_some (t rep rest' : List Char)
    (h : tryTripleNL t = some (rep, rest')) :
    ∃ r, t = '\n' :: '\n' :: '\n' :: r ∧ rep = ['\n', '\n']
      ∧ rest' = r.dropWhile (fun c => c == '\n') := by
  unfold tryTripleNL at h
  split at h
  · rename_i r
    injection h with h'
    injection h' with h1 h2
    exact ⟨r, rfl, h1.symm, h2.symm⟩
  · cases h

theorem scan12_head (fuel : Nat) (l : List Char) :
    (replaceScanF tryTripleNL fuel l).head? = l.head? := by
  cases fuel with
  | zero => cases l <;> rfl
  | succ fuel =>
    cases l with
    | nil => rfl
    | cons c rest =>
      simp only [replaceScanF]
      cases htry : tryTripleNL (c :: rest) with
      | none => rfl
      | some pr =>
        obtain ⟨rep, rest'⟩ := pr
        rcases tryTripleNL_some _ rep rest' htry with ⟨r, heq, hrep, -⟩
        subst hrep
        cases heq
        rfl

theorem scan12_mem : ∀ (fuel : Nat) (l : List Char) (c : Char),
    c ∈ replaceScanF tryTripleNL fuel l → c ∈ l ∨ c = '\n' := by
  intro fuel
  induction fuel with
  | zero =>
    intro l c hc
    cases l with
    | nil => simp [replaceScanF] at hc
    | cons a r => exact Or.inl hc
  | succ fuel ih =>
    intro l c hc
    cases l with
    | nil => simp [replaceScanF] at hc
    | cons a r =>
      simp only [replaceScanF] at hc
      cases htry : tryTripleNL (a :: r) with
      | none =>
        rw [htry] at hc
        rcases List.mem_cons.mp hc with rfl | hc'
        · exact Or.inl (List.mem_cons_self _ _)
        · rcases ih r c hc' with hm | hm
          · exact Or.inl (List.mem_cons_of_mem _ hm)
          · exact Or.inr hm
      | some pr =>
        obtain ⟨rep, rest'⟩ := pr
        rw [htry] at hc
        rcases tryTripleNL_some _ rep rest' htry with ⟨r3, heq, hrep, hrest⟩
        subst hrep
        subst hrest
        simp only at hc
        rcases List.mem_append.mp hc with hm | hm
        · right
          rcases List.mem_cons.mp hm with rfl | hm2
          · rfl
          · simpa using hm2
        · rcases ih _ c hm with hm2 | hm2
          · left
            have : c ∈ r3 := (List.dropWhile_suffix _).subset hm2
            cases heq
            simp [this]
          · exact Or.inr hm2

theorem scan12_two_nl (fuel : Nat) (l : List Char)
    (h : ['\n', '\n'] <+: replaceScanF tryTripleNL fuel l) : ['\n', '\n'] <+: l := by
  cases fuel with
  | zero =>
    cases l with
    | nil => exact h
    | cons a r => exact h
  | succ fuel =>
    cases l with
    | nil => simp [replaceScanF] at h
    | cons a r =>
      simp only [replaceScanF] at h
      cases htry : tryTripleNL (a :: r) with
      | none =>
        rw [htry] at h
        rcases List.cons_prefix_cons.mp h with ⟨ha, h2⟩
        subst ha
        rcases h2 with ⟨s, hs⟩
        have hhead : (replaceScanF tryTripleNL fuel r).head? = some '\n' := by
          rw [← hs]
          rfl
        rw [scan12_head] at hhead
        rcases r with _ | ⟨b, r2⟩
        · cases hhead
        · have hb : b = '\n' := by simpa using hhead
          subst hb
          exact ⟨r2, rfl⟩
      | some pr =>
        obtain ⟨rep, rest'⟩ := pr
        rcases tryTripleNL_some _ rep rest' htry with ⟨r3, heq, -, -⟩
        cases heq
        exact ⟨'\n' :: r3, rfl⟩

theorem scan12_no_triple : ∀ (fuel : Nat) (l : List Char), l.length ≤ fuel →
    ¬ ['\n', '\n', '\n'] <:+: replaceScanF tryTripleNL fuel l := by
  intro fuel
  induction fuel with
  | zero =>
    intro l hlen
    have : l = [] := by
      cases l
      · rfl
      · simp at hlen
    subst this
    intro hinf
    have := List.infix_nil.mp hinf
    cases this
  | succ fuel ih =>
    intro l hlen
    cases l with
    | nil =>
      intro hinf
      have := List.infix_nil.mp hinf
      cases this
    | cons a r =>
      simp only [replaceScanF]
      cases htry : tryTripleNL (a :: r) with
      | none =>
        intro hinf
        rcases List.infix_cons_iff.mp hinf with hpre | hinf'
        · rcases List.cons_prefix_cons.mp hpre with ⟨ha, h2⟩
          subst ha
          have h3 : ['\n', '\n'] <+: r := scan12_two_nl fuel r h2
          rcases h3 with ⟨s, hs⟩
          rw [← hs] at htry
          simp [tryTripleNL] at htry
        · exact ih r (by simpa using Nat.le_of_succ_le_succ hlen) hinf'
      | some pr =>
        obtain ⟨rep, rest'⟩ := pr
        rcases tryTripleNL_some _ rep rest' htry with ⟨r3, heq, hrep, hrest⟩
        subst hrep
        subst hrest
        cases heq
        simp only
        intro hinf
        have hdw : ∀ x, (r3.dropWhile (fun c => c == '\n')).head? = some x → x ≠ '\n' := by
          intro x hx hxn
          have hmm := List.head?_dropWhile_not (fun c => c == '\n') r3
          rw [hx] at hmm
          rw [hxn] at hmm
          simp at hmm
        have hlen' : (r3.dropWhile (fun c => c == '\n')).length ≤ fuel := by
          have h1 := (List.dropWhile_suffix (l := r3) (fun c => c == '\n')).sublist.length_le
          simp only [List.length_cons] at hlen
          omega
        rcases List.infix_cons_iff.mp hinf with hpre | hinf2
        · rcases List.cons_prefix_cons.mp hpre with ⟨-, h2⟩
          rcases List.cons_prefix_cons.mp h2 with ⟨-, h3⟩
          rcases h3 with ⟨s, hs⟩
          have hs' : replaceScanF tryTripleNL fuel
              (r3.dropWhile (fun c => c == '\n')) = '\n' :: s := by
            simpa using hs.symm
          have hhead : (replaceScanF tryTripleNL fuel
              (r3.dropWhile (fun c => c == '\n'))).head? = some '\n' := by
            rw [hs']
            rfl
          rw [scan12_head] at hhead
          rcases hh : (r3.dropWhile (fun c => c == '\n')).head? with _ | x
          · rw [hh] at hhead
            cases hhead
          · rw [hh] at hhead
            cases hhead
            exact hdw _ hh rfl
        · rcases List.infix_cons_iff.mp hinf2 with hpre2 | hinf3
          · rcases List.cons_prefix_cons.mp hpre2 with ⟨-, h2⟩
            have h3 : ['\n', '\n'] <+: r3.dropWhile (fun c => c == '\n') :=
              scan12_two_nl fuel _ h2
            rcases h3 with ⟨s, hs⟩
            have hs' : r3.dropWhile (fun c => c == '\n') = '\n' :: ('\n' :: s) := by
              simpa using hs.symm
            have hh : (r3.dropWhile (fun c => c == '\n')).head? = some '\n' := by
              rw [hs']
              rfl
            exact hdw _ hh rfl
          · exact ih _ hlen' hinf3

theorem scan12_id (l : List Char) (h : ¬ ['\n', '\n', '\n'] <:+: l) (fuel : Nat) :
    replaceScanF tryTripleNL fuel l = l :=
  replaceScanF_id _ l
    (fun t ht _ => by
      cases htry : tryTripleNL t with
      | none => rfl
      | some pr =>
        obtain ⟨rep, rest'⟩ := pr
        rcases tryTripleNL_some _ rep rest' htry with ⟨r, heq, -, -⟩
        subst heq
        exact absurd ((List.prefix_append ['\n', '\n', '\n'] r).isInfix.trans
          ht.isInfix) h)
    fuel

theorem scan12_hasNLDash : ∀ (fuel : Nat) (l : List Char),
    hasNLDash (replaceScanF tryTripleNL fuel l) = true → hasNLDash l = true := by
  intro fuel
  induction fuel with
  | zero =>
    intro l h
    cases l with
    | nil => cases h
    | cons a r => exact h
  | succ fuel ih =>
    intro l h
    cases l with
    | nil => cases h
    | cons a r =>
      simp only [replaceScanF] at h
      cases htry : tryTripleNL (a :: r) with
      | none =>
        rw [htry] at h
        rcases (hasNLDash_cons_iff a _).mp h with ⟨ha, hh⟩ | h2
        · subst ha
          rw [scan12_head] at hh
          rcases r with _ | ⟨b, r2⟩
          · cases hh
          · have hb : b = '-' := by simpa using hh
            subst hb
            simp [hasNLDash]
        · exact hasNLDash_cons_of a r (ih r h2)
      | some pr =>
        obtain ⟨rep, rest'⟩ := pr
        rw [htry] at h
        rcases tryTripleNL_some _ rep rest' htry with ⟨r3, heq, hrep, hrest⟩
        subst hrep
        subst hrest
        cases heq
        simp only at h
        rcases (hasNLDash_cons_iff '\n' _).mp h with ⟨-, hh⟩ | h2
        · simp at hh
        · rcases (hasNLDash_cons_iff '\n' _).mp h2 with ⟨-, hh⟩ | h3
          · have hh2 : (replaceScanF tryTripleNL fuel
                (r3.dropWhile (fun c => c == '\n'))).head? = some '-' := hh
            rw [scan12_head] at hh2
            rcases hdr : r3.dropWhile (fun c => c == '\n') with _ | ⟨x, xs⟩
            · rw [hdr] at hh2
              cases hh2
            · rw [hdr] at hh2
              have hx : x = '-' := by simpa using hh2
              subst hx
              have hnl := hasNLDash_nl_dropWhile r3 xs hdr
              exact hasNLDash_cons_of _ _ (hasNLDash_cons_of _ _ hnl)
          · have hr3 := ih _ h3
            have h4 : hasNLDash r3 = true :=
              hasNLDash_suffix _ _ (List.dropWhile_suffix _) hr3
            exact hasNLDash_cons_of _ _ (hasNLDash_cons_of _ _ (hasNLDash_cons_of _ _ h4))

theorem enhanceMarkdownL_clean (l : List Char) (hp : '|' ∉ l) (hh : '#' ∉ l)
    (hd : hasNLDash l = false) :
    enhanceMarkdownL l = jsReplace tryTripleNL l := by
  have hdsub : ∀ t, t <:+ l → hasNLDash t = false := by
    intro t ht
    cases hcase : hasNLDash t with
    | false => rfl
    | true => exact absurd (hasNLDash_suffix t l ht hcase) (by simp [hd])
  have h1 : jsReplace tryTableRow l = l :=
    replaceScanF_id _ l (fun t ht _ => tryTableRow_none t (fun hm => hp (ht.subset hm))) _
  have h2 : jsReplace tryDividerRow l = l :=
    replaceScanF_id _ l (fun t ht _ => tryDividerRow_none t (fun hm => hp (ht.subset hm))) _
  have h3 : jsReplace tryBSF l = l :=
    replaceScanF_id _ l (fun t ht _ => tryBSF_none t (fun hm => hh (ht.subset hm))) _
  have h4 : jsReplace tryMultiPipe l = l :=
    replaceScanF_id _ l (fun t ht _ => tryMultiPipe_none t (fun hm => hp (ht.subset hm))) _
  have h5 : step5F l.length true l = l := step5F_id _ _ _ hp
  have h6 : jsReplace tryH3 l = l :=
    replaceScanF_id _ l (fun t ht _ => tryH3_none t (fun hm => hh (ht.subset hm))) _
  have h7 : jsReplace tryH2 l = l :=
    replaceScanF_id _ l (fun t ht _ => tryH2_none t (fun hm => hh (ht.subset hm))) _
  have h8 : step8F l.length none l = l := step8F_id _ _ _ hh
  have h9 : jsReplace tryDashLine l = l :=
    replaceScanF_id _ l (fun t ht _ => tryDashLine_none t (hdsub t ht)) _
  have h10 : jsReplace tryHeadBlank l = l :=
    replaceScanF_id _ l (fun t ht _ => tryHeadBlank_none t (fun hm => hh (ht.subset hm))) _
  have h11 : jsReplace tryNLDash l = l :=
    replaceScanF_id _ l (fun t ht _ => tryNLDash_none t (hdsub t ht)) _
  simp only [enhanceMarkdownL]
  rw [h1, h2, h3, h4, h5, h6, h7, h8, h9, h10, h11]

theorem enhanceMarkdown_def (s : String) :
    enhanceMarkdown s = ⟨enhanceMarkdownL s.data⟩ :=
  rfl

theorem String_data_mk (l : List Char) : (⟨l⟩ : String).data = l :=
  rfl

/-- C8 amended: `enhanceMarkdown` is NOT idempotent on all pipe-free clean
markdown (the heading and list-marker respacing rules insert an extra space
on each application, see the counterexample); it IS idempotent on every
string that contains no `'|'`, no `'#'`, and no newline immediately followed
by `'-'` — on such strings the first eleven rules are the identity and the
newline-collapsing rule is idempotent. -/
theorem enhanceMarkdown_idempotent_amended (s : String) (hp : '|' ∉ s.data)
    (hh : '#' ∉ s.data) (hd : hasNLDash s.data = false) :
    enhanceMarkdown (enhanceMarkdown s) = enhanceMarkdown s := by
  have h1 : enhanceMarkdownL s.data = jsReplace tryTripleNL s.data :=
    enhanceMarkdownL_clean _ hp hh hd
  have hp' : '|' ∉ jsReplace tryTripleNL s.data := by
    intro hm
    rcases scan12_mem _ _ _ hm with hm2 | hm2
    · exact hp hm2
    · exact absurd hm2 (by decide)
  have hh' : '#' ∉ jsReplace tryTripleNL s.data := by
    intro hm
    rcases scan12_mem _ _ _ hm with hm2 | hm2
    · exact hh hm2
    · exact absurd hm2 (by decide)
  have hd' : hasNLDash (jsReplace tryTripleNL s.data) = false := by
    cases hcase : hasNLDash (jsReplace tryTripleNL s.data) with
    | false => rfl
    | true => exact absurd (scan12_hasNLDash _ _ hcase) (by simp [hd])
  have hnt : ¬ ['\n', '\n', '\n'] <:+: jsReplace tryTripleNL s.data :=
    scan12_no_triple s.data.length s.data le_rfl
  have h2 : enhanceMarkdownL (jsReplace tryTripleNL s.data)
      = jsReplace tryTripleNL (jsReplace tryTripleNL s.data) :=
    enhanceMarkdownL_clean _ hp' hh' hd'
  have h3 : jsReplace tryTripleNL (jsReplace tryTripleNL s.data)
      = jsReplace tryTripleNL s.data :=
    scan12_id _ hnt _
  have key : enhanceMarkdownL (enhanceMarkdownL s.data) = enhanceMarkdownL s.data :=
    (congrArg enhanceMarkdownL h1).trans (h2.trans (h3.trans h1.symm))
  simp only [enhanceMarkdown_def, String_data_mk]
  exact congrArg String.mk key

/-- Witness for the amended C8 theorem at a concrete input with a run of
four newlines (which the last rule collapses to two). -/
theorem enhanceMarkdown_idempotent_amended_witness :
    ('|' ∉ ("a\n\n\n\nb" : String).data ∧ '#' ∉ ("a\n\n\n\nb" : String).data
      ∧ hasNLDash ("a\n\n\n\nb" : String).data = false)
    ∧ enhanceMarkdown (enhanceMarkdown "a\n\n\n\nb") = enhanceMarkdown "a\n\n\n\nb" :=
  ⟨⟨by decide, by decide, by decide⟩,
    enhanceMarkdown_idempotent_amended "a\n\n\n\nb" (by decide) (by decide) (by decide)⟩
